import Mathlib

/-!
Verification model of the TurboPipe buffer-dispatch engine
(`src/turbopipe/lib.rs`).

The Rust source is a small concurrent program: a dispatcher (`pipe`),
a fixed pool of reader threads (`eternal_reader`), one writer thread per
destination file descriptor (`eternal_writer`), a pending-address registry
(`PendingPointers`), a writer registry (`StreamsMap`), and two barriers
(`sync`, `close`).

We embed it as a labelled small-step transition system.  Each lock-protected
region of the source (every access to `pending` or `streams` happens under a
`Mutex`, every channel operation is atomic) becomes one atomic transition.
The streams mutex is modelled explicitly (`slock`) because `close` holds it
across `handle.join()`, which blocks every other streams access until the
joined writer has terminated.

Correspondence with the source:
  * `Work`, `Frame`                 — the Rust structs (lines 22-29);
  * `readBytes`                     — `slice::from_raw_parts(...).to_vec()` (line 68);
  * `pending : Finset (fd × ptr)`   — `HashMap<FileDescriptor, HashSet<Pointer>>`
    flattened to its set of (key, element) pairs; every operation the source
    performs on it (`values().any(..contains..)`, `entry().or_insert().insert`,
    `get_mut`/`remove`, `get(..).is_empty`, `values().all(is_empty)`) depends
    only on that pair set, so the flattening is faithful;
  * `EternalWriter`                 — one writer thread together with its
    channel: `wqueue` is the channel content, `written` the frames already
    handed to `file.write_all` (paired with the write outcome, which line 83
    discards), `closed` records that its `Sender` was dropped by `close`,
    `terminated` that the thread returned;
  * `readThreadCount`               — the `READ_THREAD_COUNT` lazy static
    (lines 14-18), a pure function of the environment variable's value;
  * `Step`                          — one labelled transition per atomic
    action of `pipe`, `sync`, `close`, `eternal_reader`, `eternal_writer`.
-/

namespace Turbopipe

abbrev Pointer := Nat
abbrev FileDescriptor := Int
abbrev Byte := Nat
abbrev Frame := List Byte

/-- The `Work` struct: `{data: Pointer, size: usize, file: FileDescriptor}`. -/
structure Work where
  data : Pointer
  size : Nat
  file : FileDescriptor
deriving DecidableEq, Repr

/-- Line 68: `std::slice::from_raw_parts(work.data as *const u8, work.size).to_vec()` —
the `size` bytes of memory starting at address `data`, read from the current
memory contents `mem`. -/
def readBytes (mem : Pointer → Byte) (data : Pointer) (size : Nat) : Frame :=
  (List.range size).map (fun i => mem (data + i))

/-- Rust `usize::from_str` as used by `s.parse::<usize>().ok()` (line 16):
an optional leading plus sign, then one or more ASCII decimal digits,
rejecting overflow past `usize::MAX` (64-bit). -/
def decDigits : Option Nat → List Char → Option Nat
  | none, _ => none
  | some n, [] => some n
  | some n, c :: cs => if c.isDigit then decDigits (some (n * 10 + (c.toNat - 48))) cs else none

/-- Rust `str::parse::<usize>().ok()`. -/
def parseUsize (s : String) : Option Nat :=
  let cs := s.data
  let ds := if cs.head? = some '+' then cs.tail else cs
  if ds = [] then none
  else match decDigits (some 0) ds with
    | none => none
    | some n => if n < 2 ^ 64 then some n else none

/-- Lines 14-18: `READ_THREAD_COUNT`, the value of
`std::env::var("TURBOPIPE_READ_THREADS").ok().and_then(|s| s.parse().ok()).unwrap_or(4)`
as a function of the environment variable's (optional) value.  The `Lazy`
static evaluates it once; the model therefore treats it as a constant of the
whole execution. -/
def readThreadCount (env : Option String) : Nat :=
  (env.bind parseUsize).getD 4

/-- One destination's writer thread together with its channel and registry
status (`EternalWriter` struct plus the state of `eternal_writer`).
`registered` is membership in the `StreamsMap`; `wqueue` the frames sent on
its channel and not yet received; `written` the frames already handed to
`file.write_all`, with the (discarded) success flag of each call; `closed`
whether its `Sender` has been dropped by `close`; `terminated` whether the
thread has returned. -/
structure EternalWriter where
  file : FileDescriptor
  registered : Bool
  wqueue : List Frame
  written : List (Frame × Bool)
  closed : Bool
  terminated : Bool
deriving DecidableEq, Repr

/-- Control state of one reader-pool thread inside the body of the
`eternal_reader` loop (lines 66-78): idle at `queue.recv()`; holding a copied
frame before the streams lookup/send (lines 69-72); past the send (or
discard), before clearing the pending entry (lines 73-76). -/
inductive ReaderPhase where
  | idle
  | copied (w : Work) (fr : Frame)
  | sent (w : Work)
deriving DecidableEq, Repr

/-- Control state of one caller thread inside `pipe` (lines 98-111),
`sync` (113-122) or `close` (124-138).  `pipeStart` is before `make_stream`;
`pipeInsert` the pending-registry spin loop; `pipeEnqueue` after inserting,
before `queue.send`; `closeWait` the pending spin loop of `close`;
`closeLook` after that barrier, before taking the streams lock; `closeJoin`
holding the streams lock while waiting on `handle.join()`. -/
inductive CallerPhase where
  | pipeStart (data : Pointer) (size : Nat) (file : FileDescriptor)
  | pipeInsert (data : Pointer) (size : Nat) (file : FileDescriptor)
  | pipeEnqueue (data : Pointer) (size : Nat) (file : FileDescriptor)
  | syncWait
  | closeWait (file : FileDescriptor)
  | closeLook (file : FileDescriptor)
  | closeJoin (file : FileDescriptor) (j : Nat)
  | done
deriving DecidableEq, Repr

/-- `streams.get(&file)` / `streams.contains_key(&file)`: index of the
registered writer for `file`, if any. -/
def findRegistered : List EternalWriter → FileDescriptor → Option Nat
  | [], _ => none
  | w :: ws, fd =>
    if w.registered = true ∧ w.file = fd then some 0
    else (findRegistered ws fd).map (· + 1)

/-- Global state: memory contents, the shared crossbeam work queue, the
pending registry (as its set of (fd, address) pairs), all writer threads ever
spawned, the reader-pool threads, the caller threads, and the holder of the
streams mutex when it is held across `handle.join()` in `close`. -/
structure State where
  mem : Pointer → Byte
  queue : List Work
  pending : Finset (FileDescriptor × Pointer)
  writers : List EternalWriter
  readers : List ReaderPhase
  callers : List CallerPhase
  slock : Option Nat

/-- Line 102: `p.values().any(|s| s.contains(&data))`. -/
def hasAddr (p : Finset (FileDescriptor × Pointer)) (a : Pointer) : Prop :=
  ∃ e ∈ p, e.2 = a

instance (p : Finset (FileDescriptor × Pointer)) (a : Pointer) : Decidable (hasAddr p a) := by
  unfold hasAddr; infer_instance

/-- Line 127: `p.get(&file).map_or(true, |s| s.is_empty())`. -/
def noPendingFor (p : Finset (FileDescriptor × Pointer)) (fd : FileDescriptor) : Prop :=
  ∀ e ∈ p, e.1 ≠ fd

instance (p : Finset (FileDescriptor × Pointer)) (fd : FileDescriptor) :
    Decidable (noPendingFor p fd) := by
  unfold noPendingFor; infer_instance

/-- Labels naming which atomic action of which thread a transition performs. -/
inductive Act where
  | makeStreamOld (i : Nat)
  | makeStreamNew (i : Nat)
  | pipeSpin (i : Nat)
  | pipeMark (i : Nat)
  | pipeSend (i : Nat)
  | readerRecv (r : Nat)
  | readerSend (r : Nat) (j : Nat)
  | readerDrop (r : Nat)
  | readerClear (r : Nat)
  | writerWrite (j : Nat) (ok : Bool)
  | writerExit (j : Nat)
  | syncSpin (i : Nat)
  | syncDone (i : Nat)
  | closeSpin (i : Nat)
  | closeReady (i : Nat)
  | closeRemove (i : Nat) (j : Nat)
  | closeNoEntry (i : Nat)
  | closeJoined (i : Nat)
  | memWrite
deriving DecidableEq, Repr

/-- The labelled small-step transition relation.  Every constructor is one
lock-protected region or atomic channel operation of the source:

* `makeStreamOld`/`makeStreamNew` — `make_stream` (lines 88-96);
* `pipeSpin`/`pipeMark` — one iteration of the pending spin loop of `pipe`
  (lines 100-109), failing respectively passing the line-102 test;
* `pipeSend` — `self.queue.send(Work {..})` (line 110);
* `readerRecv` — `queue.recv()` plus the raw-parts copy (lines 67-68);
* `readerSend`/`readerDrop` — the streams lookup and the channel send or
  silent discard (lines 69-72);
* `readerClear` — removing the address from the pending registry (lines 73-76);
* `writerWrite` — one `rx.recv()` plus `file.write_all`, whose result `ok`
  is discarded (lines 82-84); `writerExit` — `recv` observing the closed,
  drained channel and the thread returning (lines 82, 85-86);
* `syncSpin`/`syncDone` — one iteration of the `sync` loop (lines 113-122);
* `closeSpin`/`closeReady` — one iteration of the `close` barrier loop
  (lines 125-132); `closeRemove`/`closeNoEntry` — taking the streams lock and
  `streams.remove(&file)` (lines 133-135), dropping the sender when an entry
  exists; `closeJoined` — `w.handle.join()` returning and the lock being
  released (lines 136-138);
* `memWrite` — the caller (or anything else) rewriting memory, which the
  engine never prevents. -/
inductive Step : State → Act → State → Prop where
  | makeStreamOld {s : State} {i : Nat} {d : Pointer} {sz : Nat} {f : FileDescriptor} {j : Nat} :
      s.callers[i]? = some (.pipeStart d sz f) →
      s.slock = none →
      findRegistered s.writers f = some j →
      Step s (.makeStreamOld i) { s with callers := s.callers.set i (.pipeInsert d sz f) }
  | makeStreamNew {s : State} {i : Nat} {d : Pointer} {sz : Nat} {f : FileDescriptor} :
      s.callers[i]? = some (.pipeStart d sz f) →
      s.slock = none →
      findRegistered s.writers f = none →
      Step s (.makeStreamNew i)
        { s with writers := s.writers ++ [⟨f, true, [], [], false, false⟩],
                 callers := s.callers.set i (.pipeInsert d sz f) }
  | pipeSpin {s : State} {i : Nat} {d : Pointer} {sz : Nat} {f : FileDescriptor} :
      s.callers[i]? = some (.pipeInsert d sz f) →
      hasAddr s.pending d →
      Step s (.pipeSpin i) s
  | pipeMark {s : State} {i : Nat} {d : Pointer} {sz : Nat} {f : FileDescriptor} :
      s.callers[i]? = some (.pipeInsert d sz f) →
      ¬ hasAddr s.pending d →
      Step s (.pipeMark i)
        { s with pending := insert (f, d) s.pending,
                 callers := s.callers.set i (.pipeEnqueue d sz f) }
  | pipeSend {s : State} {i : Nat} {d : Pointer} {sz : Nat} {f : FileDescriptor} :
      s.callers[i]? = some (.pipeEnqueue d sz f) →
      Step s (.pipeSend i)
        { s with queue := s.queue ++ [⟨d, sz, f⟩],
                 callers := s.callers.set i .done }
  | readerRecv {s : State} {r : Nat} {w : Work} {rest : List Work} :
      s.readers[r]? = some .idle →
      s.queue = w :: rest →
      Step s (.readerRecv r)
        { s with queue := rest,
                 readers := s.readers.set r (.copied w (readBytes s.mem w.data w.size)) }
  | readerSend {s : State} {r : Nat} {w : Work} {fr : Frame} {j : Nat} {wr : EternalWriter} :
      s.readers[r]? = some (.copied w fr) →
      s.slock = none →
      findRegistered s.writers w.file = some j →
      s.writers[j]? = some wr →
      Step s (.readerSend r j)
        { s with writers := s.writers.set j { wr with wqueue := wr.wqueue ++ [fr] },
                 readers := s.readers.set r (.sent w) }
  | readerDrop {s : State} {r : Nat} {w : Work} {fr : Frame} :
      s.readers[r]? = some (.copied w fr) →
      s.slock = none →
      findRegistered s.writers w.file = none →
      Step s (.readerDrop r) { s with readers := s.readers.set r (.sent w) }
  | readerClear {s : State} {r : Nat} {w : Work} :
      s.readers[r]? = some (.sent w) →
      Step s (.readerClear r)
        { s with pending := s.pending.erase (w.file, w.data),
                 readers := s.readers.set r .idle }
  | writerWrite {s : State} {j : Nat} {wr : EternalWriter} {fr : Frame} {rest : List Frame}
      (ok : Bool) :
      s.writers[j]? = some wr →
      wr.terminated = false →
      wr.wqueue = fr :: rest →
      Step s (.writerWrite j ok)
        { s with writers :=
            s.writers.set j { wr with wqueue := rest, written := wr.written ++ [(fr, ok)] } }
  | writerExit {s : State} {j : Nat} {wr : EternalWriter} :
      s.writers[j]? = some wr →
      wr.terminated = false →
      wr.closed = true →
      wr.wqueue = [] →
      Step s (.writerExit j)
        { s with writers := s.writers.set j { wr with terminated := true } }
  | syncSpin {s : State} {i : Nat} :
      s.callers[i]? = some .syncWait →
      s.pending ≠ ∅ →
      Step s (.syncSpin i) s
  | syncDone {s : State} {i : Nat} :
      s.callers[i]? = some .syncWait →
      s.pending = ∅ →
      Step s (.syncDone i) { s with callers := s.callers.set i .done }
  | closeSpin {s : State} {i : Nat} {f : FileDescriptor} :
      s.callers[i]? = some (.closeWait f) →
      ¬ noPendingFor s.pending f →
      Step s (.closeSpin i) s
  | closeReady {s : State} {i : Nat} {f : FileDescriptor} :
      s.callers[i]? = some (.closeWait f) →
      noPendingFor s.pending f →
      Step s (.closeReady i) { s with callers := s.callers.set i (.closeLook f) }
  | closeRemove {s : State} {i : Nat} {f : FileDescriptor} {j : Nat} {wr : EternalWriter} :
      s.callers[i]? = some (.closeLook f) →
      s.slock = none →
      findRegistered s.writers f = some j →
      s.writers[j]? = some wr →
      Step s (.closeRemove i j)
        { s with writers := s.writers.set j { wr with registered := false, closed := true },
                 callers := s.callers.set i (.closeJoin f j),
                 slock := some i }
  | closeNoEntry {s : State} {i : Nat} {f : FileDescriptor} :
      s.callers[i]? = some (.closeLook f) →
      s.slock = none →
      findRegistered s.writers f = none →
      Step s (.closeNoEntry i) { s with callers := s.callers.set i .done }
  | closeJoined {s : State} {i : Nat} {f : FileDescriptor} {j : Nat} {wr : EternalWriter} :
      s.callers[i]? = some (.closeJoin f j) →
      s.writers[j]? = some wr →
      wr.terminated = true →
      Step s (.closeJoined i)
        { s with callers := s.callers.set i .done, slock := none }
  | memWrite {s : State} (m : Pointer → Byte) :
      Step s .memWrite { s with mem := m }

/-- A step with some label. -/
def StepAny (s t : State) : Prop := ∃ a, Step s a t

/-- Executions: the reflexive-transitive closure of the step relation. -/
def Reaches (s t : State) : Prop := Relation.ReflTransGen StepAny s t

/-- The pending-registry pair a caller thread is responsible for: a caller
between its pending insert (line 107) and its queue send (line 110) accounts
for one outstanding copy. -/
def callerOcc : CallerPhase → Option (FileDescriptor × Pointer)
  | .pipeEnqueue d _ f => some (f, d)
  | _ => none

/-- The pending-registry pair a reader thread is responsible for: from the
moment it received the work item until it clears the entry (lines 67-76). -/
def readerOcc : ReaderPhase → Option (FileDescriptor × Pointer)
  | .copied w _ => some (w.file, w.data)
  | .sent w => some (w.file, w.data)
  | .idle => none

/-- Caller-thread occurrence of address `a`. -/
def cOccA (a : Pointer) : CallerPhase → Bool :=
  fun c => decide ((callerOcc c).map Prod.snd = some a)

/-- Work-queue occurrence of address `a`. -/
def qOccA (a : Pointer) : Work → Bool :=
  fun w => decide (w.data = a)

/-- Reader-thread occurrence of address `a`. -/
def rOccA (a : Pointer) : ReaderPhase → Bool :=
  fun r => decide ((readerOcc r).map Prod.snd = some a)

/-- Number of in-flight copies of address `a`: submissions inserted but not
yet enqueued, work items waiting in the shared queue, and work items held by
a reader that has not yet cleared the pending entry. -/
def addrCount (s : State) (a : Pointer) : Nat :=
  s.callers.countP (cOccA a) + s.queue.countP (qOccA a) + s.readers.countP (rOccA a)

/-- The global invariant of the engine:

* `callerPend`, `queuePend`, `readerPend` — every in-flight piece of work is
  covered by its pending-registry pair (the pair is inserted before the work
  item is enqueued and removed only after the copy and the send);
* `addrUnique` — the registry holds at most one pair per address (line 102
  checks all destinations before line 107 inserts);
* `addrOnce` — at most one in-flight copy per address;
* `writerFlags` — a terminated writer has a closed, drained channel, and a
  closed channel means `close` already removed the registry entry;
* `regUnique` — at most one registered writer per destination (`make_stream`
  is idempotent under the streams lock);
* `closing` — while a `close` caller waits on `handle.join()` it holds the
  streams lock, no registered writer for the destination exists, and the
  writer being joined is unregistered with a closed channel. -/
structure Inv (s : State) : Prop where
  callerPend : ∀ (i : Nat) (c : CallerPhase), s.callers[i]? = some c →
    ∀ e, callerOcc c = some e → e ∈ s.pending
  queuePend : ∀ w ∈ s.queue, (w.file, w.data) ∈ s.pending
  readerPend : ∀ (r : Nat) (ph : ReaderPhase), s.readers[r]? = some ph →
    ∀ e, readerOcc ph = some e → e ∈ s.pending
  addrUnique : ∀ e₁ ∈ s.pending, ∀ e₂ ∈ s.pending, e₁.2 = e₂.2 → e₁ = e₂
  addrOnce : ∀ a, addrCount s a ≤ 1
  writerFlags : ∀ (j : Nat) (w : EternalWriter), s.writers[j]? = some w →
    (w.terminated = true → w.closed = true ∧ w.wqueue = []) ∧
    (w.closed = true → w.registered = false)
  regUnique : ∀ (j k : Nat) (wj wk : EternalWriter),
    s.writers[j]? = some wj → s.writers[k]? = some wk →
    wj.registered = true → wk.registered = true → wj.file = wk.file → j = k
  closing : ∀ (i : Nat) (f : FileDescriptor) (j : Nat),
    s.callers[i]? = some (.closeJoin f j) →
    s.slock = some i ∧
    (∀ (k : Nat) (w : EternalWriter), s.writers[k]? = some w →
      ¬(w.registered = true ∧ w.file = f)) ∧
    (∃ wr, s.writers[j]? = some wr ∧ wr.registered = false ∧ wr.closed = true)

/-- Caller phases that exist at the start of an execution: at the public
entry points `pipe`, `sync`, `close`, or not calling into the engine. -/
def isInitial : CallerPhase → Bool
  | .pipeStart _ _ _ => true
  | .syncWait => true
  | .closeWait _ => true
  | .done => true
  | _ => false

/-- Initial states: empty queue and registries (lines 52-55), all readers
idle at `queue.recv()` (lines 56-62), all callers at an entry point, the
streams lock free. -/
structure InitOk (s : State) : Prop where
  queueNil : s.queue = []
  pendNil : s.pending = ∅
  writersNil : s.writers = []
  readersIdle : ∀ r ∈ s.readers, r = .idle
  callersInit : ∀ c ∈ s.callers, isInitial c = true
  lockFree : s.slock = none

/-- The initial state of the engine for a given environment, memory and set
of callers: `TurboPipe::new` (lines 52-64) spawns `READ_THREAD_COUNT` reader
threads and creates empty registries. -/
def mkInit (env : Option String) (m : Pointer → Byte) (cs : List CallerPhase) : State :=
  { mem := m, queue := [], pending := ∅, writers := [],
    readers := List.replicate (readThreadCount env) .idle, callers := cs, slock := none }

lemma callerOcc_of_isInitial {c : CallerPhase} (h : isInitial c = true) : callerOcc c = none := by
  cases c <;> simp_all [isInitial, callerOcc]

lemma mkInit_initOk (env : Option String) (m : Pointer → Byte) {cs : List CallerPhase}
    (h : ∀ c ∈ cs, isInitial c = true) : InitOk (mkInit env m cs) := by
  refine ⟨rfl, rfl, rfl, ?_, h, rfl⟩
  intro r hr
  exact List.eq_of_mem_replicate hr

/-- The invariant holds in every initial state. -/
lemma invInit {s : State} (h : InitOk s) : Inv s := by
  refine ⟨?_, ?_, ?_, ?_, ?_, ?_, ?_, ?_⟩
  · intro i c hc e he
    have hm : c ∈ s.callers := List.getElem?_mem hc
    rw [callerOcc_of_isInitial (h.callersInit c hm)] at he
    exact absurd he (by simp)
  · intro w hw
    rw [h.queueNil] at hw
    exact absurd hw (by simp)
  · intro r ph hr e he
    have hm : ph ∈ s.readers := List.getElem?_mem hr
    rw [h.readersIdle ph hm] at he
    exact absurd he (by simp [readerOcc])
  · intro e₁ h₁ e₂ h₂ _
    rw [h.pendNil] at h₁
    exact absurd h₁ (by simp)
  · intro a
    have hc : s.callers.countP (cOccA a) = 0 := by
      rw [List.countP_eq_zero]
      intro c hm
      simp [cOccA, callerOcc_of_isInitial (h.callersInit c hm)]
    have hq : s.queue.countP (qOccA a) = 0 := by
      rw [h.queueNil]; rfl
    have hr : s.readers.countP (rOccA a) = 0 := by
      rw [List.countP_eq_zero]
      intro r hm
      rw [h.readersIdle r hm]
      simp [rOccA, readerOcc]
    simp [addrCount, hc, hq, hr]
  · intro j w hw
    rw [h.writersNil] at hw
    exact absurd hw (by simp)
  · intro j k wj wk hj
    rw [h.writersNil] at hj
    exact absurd hj (by simp)
  · intro i f j hc
    have hm : CallerPhase.closeJoin f j ∈ s.callers := List.getElem?_mem hc
    have := h.callersInit _ hm
    simp [isInitial] at this

lemma lt_of_getElem?_some {α : Type} {l : List α} {i : Nat} {x : α}
    (h : l[i]? = some x) : i < l.length :=
  (List.getElem?_eq_some.mp h).1

lemma getElem?_set_cases {α : Type} {l : List α} {i k : Nat} {x y : α}
    (h : (l.set i x)[k]? = some y) : (k = i ∧ y = x) ∨ (k ≠ i ∧ l[k]? = some y) := by
  by_cases hk : k = i
  · subst hk
    have hlen : k < l.length := by
      have := lt_of_getElem?_some h
      simpa using this
    rw [List.getElem?_set_eq hlen] at h
    exact Or.inl ⟨rfl, (Option.some_inj.mp h).symm⟩
  · rw [List.getElem?_set_ne (fun he => hk he.symm)] at h
    exact Or.inr ⟨hk, h⟩

lemma getElem?_set_self {α : Type} {l : List α} {i : Nat} {x : α}
    (h : l[i]? = some x) (y : α) : (l.set i y)[i]? = some y :=
  List.getElem?_set_eq (lt_of_getElem?_some h)

lemma getElem?_set_other {α : Type} {l : List α} {i k : Nat} (x : α)
    (h : i ≠ k) : (l.set i x)[k]? = l[k]? :=
  List.getElem?_set_ne h

lemma countP_set_eq {α : Type} (p : α → Bool) :
    ∀ (l : List α) (i : Nat) {x : α} (y : α), l[i]? = some x →
      (l.set i y).countP p + (if p x then 1 else 0) = l.countP p + (if p y then 1 else 0)
  | [], i, x, y, h => by simp at h
  | a :: t, 0, x, y, h => by
    have hax : a = x := by simpa using h
    subst hax
    simp [List.countP_cons]
    omega
  | a :: t, i + 1, x, y, h => by
    have ht : t[i]? = some x := by simpa using h
    have := countP_set_eq p t i y ht
    simp only [List.set, List.countP_cons]
    omega

lemma countP_set_same {α : Type} (p : α → Bool) {l : List α} {i : Nat} {x : α}
    (h : l[i]? = some x) {y : α} (hpxy : p x = p y) : (l.set i y).countP p = l.countP p := by
  have := countP_set_eq p l i y h
  rw [hpxy] at this
  omega

lemma one_le_countP {α : Type} (p : α → Bool) {l : List α} {i : Nat} {x : α}
    (h : l[i]? = some x) (hp : p x = true) : 1 ≤ l.countP p := by
  have : x ∈ l := List.getElem?_mem h
  have := List.countP_pos_iff.mpr ⟨x, this, hp⟩
  omega

lemma two_le_countP {α : Type} (p : α → Bool) :
    ∀ (l : List α) {i j : Nat} {x y : α}, l[i]? = some x → l[j]? = some y → i ≠ j →
      p x = true → p y = true → 2 ≤ l.countP p
  | [], i, j, x, y, hx, _, _, _, _ => by simp at hx
  | a :: t, 0, 0, x, y, _, _, hij, _, _ => absurd rfl hij
  | a :: t, 0, j + 1, x, y, hx, hy, _, px, py => by
    have hax : a = x := by simpa using hx
    have ht : t[j]? = some y := by simpa using hy
    have h1 := one_le_countP p ht py
    have hc : (a :: t).countP p = t.countP p + 1 := by
      rw [List.countP_cons, hax, px]
      rfl
    omega
  | a :: t, i + 1, 0, x, y, hx, hy, _, px, py => by
    have hay : a = y := by simpa using hy
    have ht : t[i]? = some x := by simpa using hx
    have h1 := one_le_countP p ht px
    have hc : (a :: t).countP p = t.countP p + 1 := by
      rw [List.countP_cons, hay, py]
      rfl
    omega
  | a :: t, i + 1, j + 1, x, y, hx, hy, hij, px, py => by
    have htx : t[i]? = some x := by simpa using hx
    have hty : t[j]? = some y := by simpa using hy
    have := two_le_countP p t htx hty (fun he => hij (by omega)) px py
    rw [List.countP_cons]
    omega

lemma findRegistered_none_iff :
    ∀ (ws : List EternalWriter) (fd : FileDescriptor),
      findRegistered ws fd = none ↔
        ∀ (k : Nat) (w : EternalWriter), ws[k]? = some w →
          ¬(w.registered = true ∧ w.file = fd)
  | [], fd => by
    constructor
    · intro _ k w hk
      simp at hk
    · intro _
      rfl
  | w :: t, fd => by
    constructor
    · intro h k w' hk hw'
      rw [findRegistered] at h
      by_cases hc : w.registered = true ∧ w.file = fd
      · rw [if_pos hc] at h
        cases h
      · rw [if_neg hc] at h
        have ht : findRegistered t fd = none := by
          cases hfr : findRegistered t fd with
          | none => rfl
          | some j => rw [hfr] at h; simp at h
        cases k with
        | zero =>
          have : w = w' := by simpa using hk
          exact hc (this ▸ hw')
        | succ k =>
          have htk : t[k]? = some w' := by simpa using hk
          exact ((findRegistered_none_iff t fd).mp ht) k w' htk hw'
    · intro h
      rw [findRegistered]
      have hw : ¬(w.registered = true ∧ w.file = fd) := h 0 w (by simp)
      rw [if_neg hw]
      have ht : findRegistered t fd = none := by
        refine (findRegistered_none_iff t fd).mpr ?_
        intro k w' hk
        exact h (k + 1) w' (by simpa using hk)
      rw [ht]
      rfl

lemma findRegistered_some :
    ∀ (ws : List EternalWriter) (fd : FileDescriptor) (j : Nat),
      findRegistered ws fd = some j →
      ∃ w, ws[j]? = some w ∧ w.registered = true ∧ w.file = fd
  | [], _, _, h => by cases h
  | w :: t, fd, j, h => by
    rw [findRegistered] at h
    by_cases hc : w.registered = true ∧ w.file = fd
    · rw [if_pos hc] at h
      have : j = 0 := (Option.some_inj.mp h).symm
      subst this
      exact ⟨w, by simp, hc⟩
    · rw [if_neg hc] at h
      rcases Option.map_eq_some'.mp h with ⟨j', hj', hjj⟩
      rcases findRegistered_some t fd j' hj' with ⟨w', hw', hreg⟩
      exact ⟨w', by rw [← hjj]; simpa using hw', hreg⟩

lemma closing_of_lockFree {s : State} (hs : Inv s) (hl : s.slock = none) :
    ∀ (i : Nat) (f : FileDescriptor) (j : Nat),
      ¬ s.callers[i]? = some (.closeJoin f j) := by
  intro i f j hc
  have := (hs.closing i f j hc).1
  rw [hl] at this
  cases this

lemma no_closeJoin_set {s : State} (hs : Inv s) (hl : s.slock = none)
    {i : Nat} {new : CallerPhase} (hnew : ∀ f j, new ≠ CallerPhase.closeJoin f j) :
    ∀ (i' : Nat) (f : FileDescriptor) (j : Nat),
      ¬ (s.callers.set i new)[i']? = some (.closeJoin f j) := by
  intro i' f j hc
  rcases getElem?_set_cases hc with ⟨_, hnew'⟩ | ⟨_, hold⟩
  · exact hnew f j hnew'.symm
  · exact closing_of_lockFree hs hl i' f j hold

lemma callerPend_set_none {s : State} (hs : Inv s) {i : Nat} {c : CallerPhase}
    (hnc : callerOcc c = none) {P : Finset (FileDescriptor × Pointer)}
    (hP : ∀ e ∈ s.pending, e ∈ P) :
    ∀ (k : Nat) (c' : CallerPhase), (s.callers.set i c)[k]? = some c' →
      ∀ e, callerOcc c' = some e → e ∈ P := by
  intro k c' hk e he
  rcases getElem?_set_cases hk with ⟨_, hcn⟩ | ⟨_, hold⟩
  · rw [hcn, hnc] at he
    cases he
  · exact hP e (hs.callerPend k c' hold e he)

lemma qOccA_decide (a : Pointer) (w : Work) : qOccA a w = decide (w.data = a) := rfl

lemma cOccA_pipeEnqueue (a d : Pointer) (sz : Nat) (f : FileDescriptor) :
    cOccA a (.pipeEnqueue d sz f) = decide (d = a) := by
  by_cases h : d = a <;> simp [cOccA, callerOcc, h]

lemma rOccA_copied (a : Pointer) (w : Work) (fr : Frame) :
    rOccA a (.copied w fr) = decide (w.data = a) := by
  by_cases h : w.data = a <;> simp [rOccA, readerOcc, h]

lemma rOccA_sent (a : Pointer) (w : Work) :
    rOccA a (.sent w) = decide (w.data = a) := by
  by_cases h : w.data = a <;> simp [rOccA, readerOcc, h]

lemma addrCount_zero_of_not_pending {s : State} (hs : Inv s) {d : Pointer}
    (hg : ¬ hasAddr s.pending d) : addrCount s d = 0 := by
  have hc : s.callers.countP (cOccA d) = 0 := by
    rw [List.countP_eq_zero]
    intro c hm hp
    rcases List.mem_iff_getElem?.mp hm with ⟨k, hk⟩
    have hocc : (callerOcc c).map Prod.snd = some d := by
      simpa [cOccA] using hp
    rcases Option.map_eq_some'.mp hocc with ⟨e, he, hed⟩
    exact hg ⟨e, hs.callerPend k c hk e he, hed⟩
  have hq : s.queue.countP (qOccA d) = 0 := by
    rw [List.countP_eq_zero]
    intro w hm hp
    have hwd : w.data = d := by simpa [qOccA] using hp
    exact hg ⟨(w.file, w.data), hs.queuePend w hm, hwd⟩
  have hr : s.readers.countP (rOccA d) = 0 := by
    rw [List.countP_eq_zero]
    intro ph hm hp
    rcases List.mem_iff_getElem?.mp hm with ⟨k, hk⟩
    have hocc : (readerOcc ph).map Prod.snd = some d := by
      simpa [rOccA] using hp
    rcases Option.map_eq_some'.mp hocc with ⟨e, he, hed⟩
    exact hg ⟨e, hs.readerPend k ph hk e he, hed⟩
  simp [addrCount, hc, hq, hr]

lemma getElem?_append_singleton {α : Type} {l : List α} {x y : α} {k : Nat}
    (h : (l ++ [x])[k]? = some y) : l[k]? = some y ∨ (k = l.length ∧ y = x) := by
  by_cases hk : k < l.length
  · rw [List.getElem?_append_left hk] at h
    exact Or.inl h
  · push_neg at hk
    rw [List.getElem?_append_right hk] at h
    rcases Nat.eq_or_lt_of_le hk with heq | hlt
    · rw [← heq, Nat.sub_self] at h
      have : x = y := by simpa using h
      exact Or.inr ⟨heq.symm, this.symm⟩
    · have hlen : ([x] : List α).length ≤ k - l.length := by
        simp
        omega
      rw [List.getElem?_eq_none hlen] at h
      cases h

lemma regUnique_set_same {s : State} (hs : Inv s) {j : Nat} {wr y : EternalWriter}
    (hwj : s.writers[j]? = some wr) (hreg : y.registered = wr.registered)
    (hfile : y.file = wr.file) :
    ∀ (j' k' : Nat) (wj wk : EternalWriter),
      (s.writers.set j y)[j']? = some wj → (s.writers.set j y)[k']? = some wk →
      wj.registered = true → wk.registered = true → wj.file = wk.file → j' = k' := by
  intro j' k' wj wk hj' hk' hrj hrk hf
  rcases getElem?_set_cases hj' with ⟨he1, hw1⟩ | ⟨_, ho1⟩ <;>
    rcases getElem?_set_cases hk' with ⟨he2, hw2⟩ | ⟨_, ho2⟩
  · rw [he1, he2]
  · subst he1
    refine hs.regUnique j' k' wr wk hwj ho2 ?_ hrk ?_
    · rw [← hreg, ← hw1]
      exact hrj
    · rw [← hfile, ← hw1]
      exact hf
  · subst he2
    refine hs.regUnique j' k' wj wr ho1 hwj hrj ?_ ?_
    · rw [← hreg, ← hw2]
      exact hrk
    · rw [← hfile, ← hw2]
      exact hf
  · exact hs.regUnique j' k' wj wk ho1 ho2 hrj hrk hf

lemma closing_set_writer {s : State} (hs : Inv s) {j : Nat} {wr y : EternalWriter}
    (hwj : s.writers[j]? = some wr) (hreg : y.registered = wr.registered)
    (hfile : y.file = wr.file) (hcl : y.closed = wr.closed) :
    ∀ (i' : Nat) (f : FileDescriptor) (j' : Nat),
      s.callers[i']? = some (.closeJoin f j') →
      s.slock = some i' ∧
      (∀ (k : Nat) (w : EternalWriter), (s.writers.set j y)[k]? = some w →
        ¬(w.registered = true ∧ w.file = f)) ∧
      (∃ w, (s.writers.set j y)[j']? = some w ∧ w.registered = false ∧ w.closed = true) := by
  intro i' f j' hc
  obtain ⟨hsl, hall, wr', hwr', hnr, hclo⟩ := hs.closing i' f j' hc
  refine ⟨hsl, ?_, ?_⟩
  · intro k w hk hwf
    rcases getElem?_set_cases hk with ⟨_, hw⟩ | ⟨_, ho⟩
    · refine hall j wr hwj ?_
      rw [hw, hreg, hfile] at hwf
      exact hwf
    · exact hall k w ho hwf
  · by_cases hjj : j' = j
    · subst hjj
      rw [hwj] at hwr'
      have hww : wr' = wr := (Option.some_inj.mp hwr').symm
      subst hww
      refine ⟨y, getElem?_set_self hwj y, ?_, ?_⟩
      · rw [hreg]
        exact hnr
      · rw [hcl]
        exact hclo
    · refine ⟨wr', ?_, hnr, hclo⟩
      rw [getElem?_set_other y (fun he => hjj he.symm)]
      exact hwr'

lemma cOccA_none (a : Pointer) (c : CallerPhase) (h : callerOcc c = none) :
    cOccA a c = false := by
  simp [cOccA, h]

lemma rOccA_none (a : Pointer) (ph : ReaderPhase) (h : readerOcc ph = none) :
    rOccA a ph = false := by
  simp [rOccA, h]

lemma invStep_makeStreamOld {s : State} {i : Nat} {d : Pointer} {sz : Nat}
    {f : FileDescriptor} (hs : Inv s)
    (hc : s.callers[i]? = some (.pipeStart d sz f)) (hl : s.slock = none) :
    Inv { s with callers := s.callers.set i (.pipeInsert d sz f) } := by
  refine ⟨callerPend_set_none hs (c := .pipeInsert d sz f) rfl (fun _ he => he),
    hs.queuePend, hs.readerPend,
    hs.addrUnique, ?_, hs.writerFlags, hs.regUnique, ?_⟩
  · intro a
    show (s.callers.set i (.pipeInsert d sz f)).countP (cOccA a)
        + s.queue.countP (qOccA a) + s.readers.countP (rOccA a) ≤ 1
    rw [countP_set_same (cOccA a) hc
      (by rw [cOccA_none a (.pipeStart d sz f) rfl, cOccA_none a (.pipeInsert d sz f) rfl])]
    exact hs.addrOnce a
  · intro i' f' j' hc'
    exact absurd hc' (no_closeJoin_set hs hl (fun _ _ h => by cases h) i' f' j')

lemma invStep_makeStreamNew {s : State} {i : Nat} {d : Pointer} {sz : Nat}
    {f : FileDescriptor} (hs : Inv s)
    (hc : s.callers[i]? = some (.pipeStart d sz f)) (hl : s.slock = none)
    (hf : findRegistered s.writers f = none) :
    Inv { s with writers := s.writers ++ [⟨f, true, [], [], false, false⟩],
                 callers := s.callers.set i (.pipeInsert d sz f) } := by
  refine ⟨callerPend_set_none hs (c := .pipeInsert d sz f) rfl (fun _ he => he),
    hs.queuePend, hs.readerPend,
    hs.addrUnique, ?_, ?_, ?_, ?_⟩
  · intro a
    show (s.callers.set i (.pipeInsert d sz f)).countP (cOccA a)
        + s.queue.countP (qOccA a) + s.readers.countP (rOccA a) ≤ 1
    rw [countP_set_same (cOccA a) hc
      (by rw [cOccA_none a (.pipeStart d sz f) rfl, cOccA_none a (.pipeInsert d sz f) rfl])]
    exact hs.addrOnce a
  · intro j w hj
    rcases getElem?_append_singleton hj with ho | ⟨_, hw⟩
    · exact hs.writerFlags j w ho
    · subst hw
      exact ⟨fun h => Bool.noConfusion h, fun h => Bool.noConfusion h⟩
  · intro j k wj wk hj hk hrj hrk hfe
    rcases getElem?_append_singleton hj with hoj | ⟨hjl, hwj⟩ <;>
      rcases getElem?_append_singleton hk with hok | ⟨hkl, hwk⟩
    · exact hs.regUnique j k wj wk hoj hok hrj hrk hfe
    · subst hwk
      exact absurd ⟨hrj, hfe⟩ ((findRegistered_none_iff s.writers f).mp hf j wj hoj)
    · subst hwj
      exact absurd ⟨hrk, hfe.symm⟩ ((findRegistered_none_iff s.writers f).mp hf k wk hok)
    · rw [hjl, hkl]
  · intro i' f' j' hc'
    exact absurd hc' (no_closeJoin_set hs hl (fun _ _ h => by cases h) i' f' j')

lemma invStep_pipeMark {s : State} {i : Nat} {d : Pointer} {sz : Nat}
    {f : FileDescriptor} (hs : Inv s)
    (hc : s.callers[i]? = some (.pipeInsert d sz f)) (hg : ¬ hasAddr s.pending d) :
    Inv { s with pending := insert (f, d) s.pending,
                 callers := s.callers.set i (.pipeEnqueue d sz f) } := by
  have hzero : s.callers.countP (cOccA d) + s.queue.countP (qOccA d)
      + s.readers.countP (rOccA d) = 0 := addrCount_zero_of_not_pending hs hg
  refine ⟨?_, ?_, ?_, ?_, ?_, hs.writerFlags, hs.regUnique, ?_⟩
  · intro k c hk e he
    rcases getElem?_set_cases hk with ⟨_, hcn⟩ | ⟨_, hold⟩
    · rw [hcn] at he
      have : (f, d) = e := Option.some_inj.mp he
      rw [← this]
      exact Finset.mem_insert_self _ _
    · exact Finset.mem_insert_of_mem (hs.callerPend k c hold e he)
  · intro w hw
    exact Finset.mem_insert_of_mem (hs.queuePend w hw)
  · intro r ph hr e he
    exact Finset.mem_insert_of_mem (hs.readerPend r ph hr e he)
  · intro e₁ h₁ e₂ h₂ hsnd
    rcases Finset.mem_insert.mp h₁ with rfl | h₁ <;> rcases Finset.mem_insert.mp h₂ with rfl | h₂
    · rfl
    · exact absurd ⟨e₂, h₂, hsnd.symm⟩ hg
    · exact absurd ⟨e₁, h₁, hsnd⟩ hg
    · exact hs.addrUnique e₁ h₁ e₂ h₂ hsnd
  · intro a
    show (s.callers.set i (.pipeEnqueue d sz f)).countP (cOccA a)
        + s.queue.countP (qOccA a) + s.readers.countP (rOccA a) ≤ 1
    have heq := countP_set_eq (cOccA a) s.callers i (CallerPhase.pipeEnqueue d sz f) hc
    have htot : s.callers.countP (cOccA a) + s.queue.countP (qOccA a)
        + s.readers.countP (rOccA a) ≤ 1 := hs.addrOnce a
    by_cases had : d = a
    · subst had
      have hnew : cOccA d (.pipeEnqueue d sz f) = true := by simp [cOccA, callerOcc]
      have hold : cOccA d (.pipeInsert d sz f) = false := rfl
      rw [hold, hnew] at heq
      simp only [Bool.false_eq_true, if_false, if_true] at heq
      omega
    · have hnew : cOccA a (.pipeEnqueue d sz f) = false := by
        simp [cOccA, callerOcc]
        exact had
      rw [countP_set_same (cOccA a) hc
        (by rw [hnew, cOccA_none a (.pipeInsert d sz f) rfl])]
      exact htot
  · intro i' f' j' hc'
    rcases getElem?_set_cases hc' with ⟨_, hcn⟩ | ⟨_, hold⟩
    · cases hcn
    · exact hs.closing i' f' j' hold

lemma invStep_pipeSend {s : State} {i : Nat} {d : Pointer} {sz : Nat}
    {f : FileDescriptor} (hs : Inv s)
    (hc : s.callers[i]? = some (.pipeEnqueue d sz f)) :
    Inv { s with queue := s.queue ++ [⟨d, sz, f⟩],
                 callers := s.callers.set i .done } := by
  refine ⟨callerPend_set_none hs (c := CallerPhase.done) rfl (fun _ he => he),
    ?_, hs.readerPend, hs.addrUnique,
    ?_, hs.writerFlags, hs.regUnique, ?_⟩
  · intro w hw
    rcases List.mem_append.mp hw with ho | hn
    · exact hs.queuePend w ho
    · have : w = ⟨d, sz, f⟩ := by simpa using hn
      subst this
      exact hs.callerPend i _ hc (f, d) rfl
  · intro a
    show (s.callers.set i .done).countP (cOccA a)
        + (s.queue ++ [(⟨d, sz, f⟩ : Work)]).countP (qOccA a) + s.readers.countP (rOccA a) ≤ 1
    have heq := countP_set_eq (cOccA a) s.callers i CallerPhase.done hc
    have hqa : (s.queue ++ [(⟨d, sz, f⟩ : Work)]).countP (qOccA a)
        = s.queue.countP (qOccA a) + (if qOccA a ⟨d, sz, f⟩ then 1 else 0) := by
      rw [List.countP_append]
      congr 1
      simp [List.countP_cons]
    have htot : s.callers.countP (cOccA a) + s.queue.countP (qOccA a)
        + s.readers.countP (rOccA a) ≤ 1 := hs.addrOnce a
    have hdone : cOccA a CallerPhase.done = false := rfl
    rw [hdone] at heq
    have hco : cOccA a (.pipeEnqueue d sz f) = qOccA a ⟨d, sz, f⟩ := by
      by_cases had : d = a <;> simp [cOccA, callerOcc, qOccA, had]
    rw [hco] at heq
    simp only [Bool.false_eq_true, if_false] at heq
    omega
  · intro i' f' j' hc'
    rcases getElem?_set_cases hc' with ⟨_, hcn⟩ | ⟨_, hold⟩
    · cases hcn
    · exact hs.closing i' f' j' hold

lemma invStep_readerRecv {s : State} {r : Nat} {w : Work} {rest : List Work} (hs : Inv s)
    (hr : s.readers[r]? = some .idle) (hq : s.queue = w :: rest) :
    Inv { s with queue := rest,
                 readers := s.readers.set r (.copied w (readBytes s.mem w.data w.size)) } := by
  have hwq : w ∈ s.queue := by
    rw [hq]
    exact List.mem_cons_self w rest
  refine ⟨hs.callerPend, ?_, ?_, hs.addrUnique, ?_, hs.writerFlags, hs.regUnique, hs.closing⟩
  · intro w' hw'
    refine hs.queuePend w' ?_
    rw [hq]
    exact List.mem_cons_of_mem w hw'
  · intro k ph hk e he
    rcases getElem?_set_cases hk with ⟨_, hcn⟩ | ⟨_, hold⟩
    · rw [hcn] at he
      have : (w.file, w.data) = e := Option.some_inj.mp he
      rw [← this]
      exact hs.queuePend w hwq
    · exact hs.readerPend k ph hold e he
  · intro a
    show s.callers.countP (cOccA a) + rest.countP (qOccA a)
        + (s.readers.set r (.copied w (readBytes s.mem w.data w.size))).countP (rOccA a) ≤ 1
    have heq := countP_set_eq (rOccA a) s.readers r
      (ReaderPhase.copied w (readBytes s.mem w.data w.size)) hr
    rw [rOccA_none a .idle rfl, rOccA_copied] at heq
    have hqc : s.queue.countP (qOccA a)
        = rest.countP (qOccA a) + (if qOccA a w then 1 else 0) := by
      rw [hq, List.countP_cons]
    rw [qOccA_decide] at hqc
    have htot : s.callers.countP (cOccA a) + s.queue.countP (qOccA a)
        + s.readers.countP (rOccA a) ≤ 1 := hs.addrOnce a
    simp only [Bool.false_eq_true, if_false] at heq
    omega

lemma invStep_readerSend {s : State} {r : Nat} {w : Work} {fr : Frame} {j : Nat}
    {wr : EternalWriter} (hs : Inv s)
    (hrd : s.readers[r]? = some (.copied w fr)) (hl : s.slock = none)
    (hf : findRegistered s.writers w.file = some j) (hwj : s.writers[j]? = some wr) :
    Inv { s with writers := s.writers.set j { wr with wqueue := wr.wqueue ++ [fr] },
                 readers := s.readers.set r (.sent w) } := by
  have hreg : wr.registered = true := by
    rcases findRegistered_some s.writers w.file j hf with ⟨w', hw', hr', _⟩
    rw [hwj] at hw'
    rw [Option.some_inj.mp hw']
    exact hr'
  have hncl : wr.closed = false := by
    cases hcl : wr.closed
    · rfl
    · have := (hs.writerFlags j wr hwj).2 hcl
      rw [hreg] at this
      exact Bool.noConfusion this
  have hnt : wr.terminated = false := by
    cases ht : wr.terminated
    · rfl
    · have := ((hs.writerFlags j wr hwj).1 ht).1
      rw [hncl] at this
      exact Bool.noConfusion this
  refine ⟨hs.callerPend, hs.queuePend, ?_, hs.addrUnique, ?_, ?_,
    regUnique_set_same hs hwj rfl rfl, ?_⟩
  · intro k ph hk e he
    rcases getElem?_set_cases hk with ⟨_, hcn⟩ | ⟨_, hold⟩
    · rw [hcn] at he
      have : (w.file, w.data) = e := Option.some_inj.mp he
      rw [← this]
      exact hs.readerPend r _ hrd (w.file, w.data) rfl
    · exact hs.readerPend k ph hold e he
  · intro a
    show s.callers.countP (cOccA a) + s.queue.countP (qOccA a)
        + (s.readers.set r (.sent w)).countP (rOccA a) ≤ 1
    rw [countP_set_same (rOccA a) hrd (by rw [rOccA_copied, rOccA_sent])]
    exact hs.addrOnce a
  · intro k w' hk
    rcases getElem?_set_cases hk with ⟨_, hcn⟩ | ⟨_, hold⟩
    · subst hcn
      constructor
      · intro ht
        have ht' : wr.terminated = true := ht
        rw [hnt] at ht'
        exact Bool.noConfusion ht'
      · intro hcl'
        have hcl'' : wr.closed = true := hcl'
        rw [hncl] at hcl''
        exact Bool.noConfusion hcl''
    · exact hs.writerFlags k w' hold
  · intro i' f' j' hc'
    exact absurd hc' (closing_of_lockFree hs hl i' f' j')

lemma invStep_readerDrop {s : State} {r : Nat} {w : Work} {fr : Frame} (hs : Inv s)
    (hrd : s.readers[r]? = some (.copied w fr)) (hl : s.slock = none) :
    Inv { s with readers := s.readers.set r (.sent w) } := by
  refine ⟨hs.callerPend, hs.queuePend, ?_, hs.addrUnique, ?_, hs.writerFlags,
    hs.regUnique, ?_⟩
  · intro k ph hk e he
    rcases getElem?_set_cases hk with ⟨_, hcn⟩ | ⟨_, hold⟩
    · rw [hcn] at he
      have : (w.file, w.data) = e := Option.some_inj.mp he
      rw [← this]
      exact hs.readerPend r _ hrd (w.file, w.data) rfl
    · exact hs.readerPend k ph hold e he
  · intro a
    show s.callers.countP (cOccA a) + s.queue.countP (qOccA a)
        + (s.readers.set r (.sent w)).countP (rOccA a) ≤ 1
    rw [countP_set_same (rOccA a) hrd (by rw [rOccA_copied, rOccA_sent])]
    exact hs.addrOnce a
  · intro i' f' j' hc'
    exact absurd hc' (closing_of_lockFree hs hl i' f' j')

lemma invStep_readerClear {s : State} {r : Nat} {w : Work} (hs : Inv s)
    (hrd : s.readers[r]? = some (.sent w)) :
    Inv { s with pending := s.pending.erase (w.file, w.data),
                 readers := s.readers.set r .idle } := by
  have hr1 : 1 ≤ s.readers.countP (rOccA w.data) :=
    one_le_countP _ hrd (by rw [rOccA_sent]; simp)
  have htw : s.callers.countP (cOccA w.data) + s.queue.countP (qOccA w.data)
      + s.readers.countP (rOccA w.data) ≤ 1 := hs.addrOnce w.data
  refine ⟨?_, ?_, ?_, ?_, ?_, hs.writerFlags, hs.regUnique, hs.closing⟩
  · intro k c hk e he
    have hmem := hs.callerPend k c hk e he
    refine Finset.mem_erase.mpr ⟨fun heq => ?_, hmem⟩
    have hc1 : 1 ≤ s.callers.countP (cOccA w.data) :=
      one_le_countP _ hk (by simp [cOccA, he, heq])
    omega
  · intro w' hw'
    have hmem := hs.queuePend w' hw'
    refine Finset.mem_erase.mpr ⟨fun heq => ?_, hmem⟩
    have hwd : w'.data = w.data := congrArg Prod.snd heq
    have hq1 : 0 < s.queue.countP (qOccA w.data) :=
      List.countP_pos_iff.mpr ⟨w', hw', by simp [qOccA, hwd]⟩
    omega
  · intro k ph hk e he
    rcases getElem?_set_cases hk with ⟨_, hcn⟩ | ⟨hne, hold⟩
    · rw [hcn] at he
      cases he
    · have hmem := hs.readerPend k ph hold e he
      refine Finset.mem_erase.mpr ⟨fun heq => ?_, hmem⟩
      have h2 := two_le_countP (rOccA w.data) s.readers hold hrd hne
        (by simp [rOccA, he, heq]) (by rw [rOccA_sent]; simp)
      omega
  · intro e₁ h₁ e₂ h₂ hsnd
    exact hs.addrUnique e₁ (Finset.mem_of_mem_erase h₁) e₂ (Finset.mem_of_mem_erase h₂) hsnd
  · intro a
    show s.callers.countP (cOccA a) + s.queue.countP (qOccA a)
        + (s.readers.set r .idle).countP (rOccA a) ≤ 1
    have heq := countP_set_eq (rOccA a) s.readers r ReaderPhase.idle hrd
    rw [rOccA_sent, rOccA_none a .idle rfl] at heq
    have htot : s.callers.countP (cOccA a) + s.queue.countP (qOccA a)
        + s.readers.countP (rOccA a) ≤ 1 := hs.addrOnce a
    simp only [Bool.false_eq_true, if_false] at heq
    omega

lemma invStep_writerWrite {s : State} {j : Nat} {wr : EternalWriter} {fr : Frame}
    {rest : List Frame} (ok : Bool) (hs : Inv s)
    (hwj : s.writers[j]? = some wr) (hterm : wr.terminated = false) :
    Inv { s with writers :=
        s.writers.set j { wr with wqueue := rest, written := wr.written ++ [(fr, ok)] } } := by
  refine ⟨hs.callerPend, hs.queuePend, hs.readerPend, hs.addrUnique, hs.addrOnce,
    ?_, regUnique_set_same hs hwj rfl rfl, closing_set_writer hs hwj rfl rfl rfl⟩
  intro k w' hk
  rcases getElem?_set_cases hk with ⟨_, hcn⟩ | ⟨_, hold⟩
  · subst hcn
    constructor
    · intro ht
      have ht' : wr.terminated = true := ht
      rw [hterm] at ht'
      exact Bool.noConfusion ht'
    · intro hcl
      exact (hs.writerFlags j wr hwj).2 hcl
  · exact hs.writerFlags k w' hold

lemma invStep_writerExit {s : State} {j : Nat} {wr : EternalWriter} (hs : Inv s)
    (hwj : s.writers[j]? = some wr)
    (hcl : wr.closed = true) (hq : wr.wqueue = []) :
    Inv { s with writers := s.writers.set j { wr with terminated := true } } := by
  refine ⟨hs.callerPend, hs.queuePend, hs.readerPend, hs.addrUnique, hs.addrOnce,
    ?_, regUnique_set_same hs hwj rfl rfl, closing_set_writer hs hwj rfl rfl rfl⟩
  intro k w' hk
  rcases getElem?_set_cases hk with ⟨_, hcn⟩ | ⟨_, hold⟩
  · subst hcn
    exact ⟨fun _ => ⟨hcl, hq⟩, fun h => (hs.writerFlags j wr hwj).2 h⟩
  · exact hs.writerFlags k w' hold

lemma invStep_syncDone {s : State} {i : Nat} (hs : Inv s)
    (hc : s.callers[i]? = some .syncWait) :
    Inv { s with callers := s.callers.set i .done } := by
  refine ⟨callerPend_set_none hs (c := CallerPhase.done) rfl (fun _ he => he), hs.queuePend,
    hs.readerPend, hs.addrUnique, ?_, hs.writerFlags, hs.regUnique, ?_⟩
  · intro a
    show (s.callers.set i .done).countP (cOccA a) + s.queue.countP (qOccA a)
        + s.readers.countP (rOccA a) ≤ 1
    rw [countP_set_same (cOccA a) hc
      (by rw [cOccA_none a .syncWait rfl, cOccA_none a .done rfl])]
    exact hs.addrOnce a
  · intro i' f' j' hc'
    rcases getElem?_set_cases hc' with ⟨_, hcn⟩ | ⟨_, hold⟩
    · cases hcn
    · exact hs.closing i' f' j' hold

lemma invStep_closeReady {s : State} {i : Nat} {f : FileDescriptor} (hs : Inv s)
    (hc : s.callers[i]? = some (.closeWait f)) :
    Inv { s with callers := s.callers.set i (.closeLook f) } := by
  refine ⟨callerPend_set_none hs (c := .closeLook f) rfl (fun _ he => he), hs.queuePend,
    hs.readerPend, hs.addrUnique, ?_, hs.writerFlags, hs.regUnique, ?_⟩
  · intro a
    show (s.callers.set i (.closeLook f)).countP (cOccA a) + s.queue.countP (qOccA a)
        + s.readers.countP (rOccA a) ≤ 1
    rw [countP_set_same (cOccA a) hc
      (by rw [cOccA_none a (.closeWait f) rfl, cOccA_none a (.closeLook f) rfl])]
    exact hs.addrOnce a
  · intro i' f' j' hc'
    rcases getElem?_set_cases hc' with ⟨_, hcn⟩ | ⟨_, hold⟩
    · cases hcn
    · exact hs.closing i' f' j' hold

lemma invStep_closeNoEntry {s : State} {i : Nat} {f : FileDescriptor} (hs : Inv s)
    (hc : s.callers[i]? = some (.closeLook f)) (hl : s.slock = none) :
    Inv { s with callers := s.callers.set i .done } := by
  refine ⟨callerPend_set_none hs (c := CallerPhase.done) rfl (fun _ he => he), hs.queuePend,
    hs.readerPend, hs.addrUnique, ?_, hs.writerFlags, hs.regUnique, ?_⟩
  · intro a
    show (s.callers.set i .done).countP (cOccA a) + s.queue.countP (qOccA a)
        + s.readers.countP (rOccA a) ≤ 1
    rw [countP_set_same (cOccA a) hc
      (by rw [cOccA_none a (.closeLook f) rfl, cOccA_none a .done rfl])]
    exact hs.addrOnce a
  · intro i' f' j' hc'
    exact absurd hc' (no_closeJoin_set hs hl (fun _ _ h => by cases h) i' f' j')

lemma invStep_closeRemove {s : State} {i : Nat} {f : FileDescriptor} {j : Nat}
    {wr : EternalWriter} (hs : Inv s)
    (hc : s.callers[i]? = some (.closeLook f)) (hl : s.slock = none)
    (hf : findRegistered s.writers f = some j) (hwj : s.writers[j]? = some wr) :
    Inv { s with writers := s.writers.set j { wr with registered := false, closed := true },
                 callers := s.callers.set i (.closeJoin f j),
                 slock := some i } := by
  have hwrf : wr.registered = true ∧ wr.file = f := by
    rcases findRegistered_some s.writers f j hf with ⟨w', hw', hr', hf'⟩
    rw [hwj] at hw'
    rw [Option.some_inj.mp hw']
    exact ⟨hr', hf'⟩
  refine ⟨callerPend_set_none hs (c := .closeJoin f j) rfl (fun _ he => he), hs.queuePend,
    hs.readerPend, hs.addrUnique, ?_, ?_, ?_, ?_⟩
  · intro a
    show (s.callers.set i (.closeJoin f j)).countP (cOccA a) + s.queue.countP (qOccA a)
        + s.readers.countP (rOccA a) ≤ 1
    rw [countP_set_same (cOccA a) hc
      (by rw [cOccA_none a (.closeLook f) rfl, cOccA_none a (.closeJoin f j) rfl])]
    exact hs.addrOnce a
  · intro k w' hk
    rcases getElem?_set_cases hk with ⟨_, hcn⟩ | ⟨_, hold⟩
    · subst hcn
      constructor
      · intro ht
        have ht' : wr.terminated = true := ht
        have hclo := ((hs.writerFlags j wr hwj).1 ht').1
        have hrf := (hs.writerFlags j wr hwj).2 hclo
        rw [hwrf.1] at hrf
        exact Bool.noConfusion hrf
      · intro _
        rfl
    · exact hs.writerFlags k w' hold
  · intro j' k' wj wk hj' hk' hrj hrk hfe
    rcases getElem?_set_cases hj' with ⟨he1, hw1⟩ | ⟨_, ho1⟩ <;>
      rcases getElem?_set_cases hk' with ⟨he2, hw2⟩ | ⟨_, ho2⟩
    · rw [he1, he2]
    · rw [hw1] at hrj
      exact Bool.noConfusion hrj
    · rw [hw2] at hrk
      exact Bool.noConfusion hrk
    · exact hs.regUnique j' k' wj wk ho1 ho2 hrj hrk hfe
  · intro i' f' j' hc'
    rcases getElem?_set_cases hc' with ⟨hei, hcn⟩ | ⟨_, hold⟩
    · injection hcn with hf1 hj1
      subst hei hf1 hj1
      refine ⟨rfl, ?_, ?_⟩
      · intro k w' hk hwf
        rcases getElem?_set_cases hk with ⟨_, hcn2⟩ | ⟨hne, ho⟩
        · rw [hcn2] at hwf
          exact Bool.noConfusion hwf.1
        · exact hne (hs.regUnique k _ w' wr ho hwj hwf.1 hwrf.1 (hwf.2.trans hwrf.2.symm))
      · exact ⟨{ wr with registered := false, closed := true },
          getElem?_set_self hwj _, rfl, rfl⟩
    · exact absurd hold (closing_of_lockFree hs hl i' f' j')

lemma invStep_closeJoined {s : State} {i : Nat} {f : FileDescriptor} {j : Nat}
    (hs : Inv s) (hc : s.callers[i]? = some (.closeJoin f j)) :
    Inv { s with callers := s.callers.set i .done, slock := none } := by
  refine ⟨callerPend_set_none hs (c := CallerPhase.done) rfl (fun _ he => he), hs.queuePend,
    hs.readerPend, hs.addrUnique, ?_, hs.writerFlags, hs.regUnique, ?_⟩
  · intro a
    show (s.callers.set i .done).countP (cOccA a) + s.queue.countP (qOccA a)
        + s.readers.countP (rOccA a) ≤ 1
    rw [countP_set_same (cOccA a) hc
      (by rw [cOccA_none a (.closeJoin f j) rfl, cOccA_none a .done rfl])]
    exact hs.addrOnce a
  · intro i' f' j' hc'
    rcases getElem?_set_cases hc' with ⟨_, hcn⟩ | ⟨hne, hold⟩
    · cases hcn
    · have h1 := (hs.closing i' f' j' hold).1
      have h2 := (hs.closing i f j hc).1
      rw [h2] at h1
      exact absurd (Option.some_inj.mp h1).symm hne

/-- Every step of the system preserves the global invariant. -/
theorem invStep {s : State} {a : Act} {t : State} (hs : Inv s) (h : Step s a t) : Inv t := by
  cases h with
  | makeStreamOld hc hl hf => exact invStep_makeStreamOld hs hc hl
  | makeStreamNew hc hl hf => exact invStep_makeStreamNew hs hc hl hf
  | pipeSpin hc hg => exact hs
  | pipeMark hc hg => exact invStep_pipeMark hs hc hg
  | pipeSend hc => exact invStep_pipeSend hs hc
  | readerRecv hr hq => exact invStep_readerRecv hs hr hq
  | readerSend hrd hl hf hwj => exact invStep_readerSend hs hrd hl hf hwj
  | readerDrop hrd hl hf => exact invStep_readerDrop hs hrd hl
  | readerClear hrd => exact invStep_readerClear hs hrd
  | writerWrite ok hwj hterm hq => exact invStep_writerWrite ok hs hwj hterm
  | writerExit hwj hterm hcl hq => exact invStep_writerExit hs hwj hcl hq
  | syncSpin hc hne => exact hs
  | syncDone hc hp => exact invStep_syncDone hs hc
  | closeSpin hc hg => exact hs
  | closeReady hc hg => exact invStep_closeReady hs hc
  | closeNoEntry hc hl hf => exact invStep_closeNoEntry hs hc hl
  | closeRemove hc hl hf hwj => exact invStep_closeRemove hs hc hl hf hwj
  | closeJoined hc hwj ht => exact invStep_closeJoined hs hc
  | memWrite m => exact ⟨hs.callerPend, hs.queuePend, hs.readerPend, hs.addrUnique,
      hs.addrOnce, hs.writerFlags, hs.regUnique, hs.closing⟩

/-- The invariant holds in every state reachable from an initial state. -/
theorem invReaches {s t : State} (h0 : InitOk s) (hr : Reaches s t) : Inv t := by
  induction hr with
  | refl => exact invInit h0
  | tail _ hstep ih =>
    rcases hstep with ⟨a, ha⟩
    exact invStep ih ha

lemma getElem?_set_preserve {α : Type} {l : List α} {i i0 : Nat} {v w : α} (x : α)
    (hv : l[i]? = some v) (h0 : l[i0]? = some w) (hwv : w ≠ v) :
    (l.set i0 x)[i]? = some v := by
  by_cases he : i0 = i
  · subst he
    rw [hv] at h0
    exact absurd (Option.some_inj.mp h0).symm hwv
  · rw [getElem?_set_other x he]
    exact hv

/-- A caller whose address is held in the pending registry cannot leave the
spin loop of `pipe` (lines 100-106): every transition of the system keeps it
at the same loop head.  The only transition that could move it is its own
`pipeMark`, whose guard (line 102) fails while any destination holds the
address. -/
lemma pipeInsert_blocked {s : State} {i : Nat} {d : Pointer} {sz : Nat}
    {f : FileDescriptor} (hc : s.callers[i]? = some (.pipeInsert d sz f))
    (hp : hasAddr s.pending d) :
    ∀ (a : Act) (t : State), Step s a t → t.callers[i]? = some (.pipeInsert d sz f) := by
  intro a t h
  cases h with
  | makeStreamOld hc' hl hf => exact getElem?_set_preserve _ hc hc' (by intro h; cases h)
  | makeStreamNew hc' hl hf => exact getElem?_set_preserve _ hc hc' (by intro h; cases h)
  | pipeSpin hc' hg => exact hc
  | pipeMark hc' hg =>
    rename_i i1 d1 sz1 f1
    by_cases he : i1 = i
    · subst he
      rw [hc] at hc'
      injection Option.some_inj.mp hc' with h1 h2 h3
      subst h1
      exact absurd hp hg
    · rw [getElem?_set_other _ he]
      exact hc
  | pipeSend hc' => exact getElem?_set_preserve _ hc hc' (by intro h; cases h)
  | readerRecv h1 h2 => exact hc
  | readerSend h1 h2 h3 h4 => exact hc
  | readerDrop h1 h2 h3 => exact hc
  | readerClear h1 => exact hc
  | writerWrite ok h1 h2 h3 => exact hc
  | writerExit h1 h2 h3 h4 => exact hc
  | syncSpin h1 h2 => exact hc
  | syncDone h1 h2 => exact getElem?_set_preserve _ hc h1 (by intro h; cases h)
  | closeSpin h1 h2 => exact hc
  | closeReady h1 h2 => exact getElem?_set_preserve _ hc h1 (by intro h; cases h)
  | closeRemove h1 h2 h3 h4 => exact getElem?_set_preserve _ hc h1 (by intro h; cases h)
  | closeNoEntry h1 h2 h3 => exact getElem?_set_preserve _ hc h1 (by intro h; cases h)
  | closeJoined h1 h2 h3 => exact getElem?_set_preserve _ hc h1 (by intro h; cases h)
  | memWrite m => exact hc

/-- C1 (amended): a reader-pool worker copies the bytes into a Frame, then
looks up the destination's Writer entry and pushes the Frame onto that
destination's queue, and only afterwards removes the address from the
Pending Registry.  At the push step (lines 69-72) the address is still
registered, and the pending entry is erased only by the later clear step
(lines 73-76), which leaves the writers untouched. -/
theorem claim1_reader_order_amended {s0 s : State} (h0 : InitOk s0) (hr : Reaches s0 s) :
    (∀ (r j : Nat) (t : State), Step s (.readerSend r j) t →
      ∃ w fr wr, s.readers[r]? = some (.copied w fr) ∧
        (w.file, w.data) ∈ s.pending ∧
        t.pending = s.pending ∧
        s.writers[j]? = some wr ∧
        t.writers = s.writers.set j { wr with wqueue := wr.wqueue ++ [fr] } ∧
        t.readers[r]? = some (.sent w)) ∧
    (∀ (r : Nat) (t : State), Step s (.readerClear r) t →
      ∃ w, s.readers[r]? = some (.sent w) ∧
        t.pending = s.pending.erase (w.file, w.data) ∧
        t.writers = s.writers) := by
  have hs := invReaches h0 hr
  constructor
  · intro r j t h
    cases h with
    | readerSend hrd hl hf hwj =>
      exact ⟨_, _, _, hrd, hs.readerPend r _ hrd _ rfl, rfl, hwj, rfl,
        getElem?_set_self hrd _⟩
  · intro r t h
    cases h with
    | readerClear hrd => exact ⟨_, hrd, rfl, rfl⟩

/-- C2: the frame created by a reader-pool worker is byte-for-byte the
`size` bytes at address `data` in the memory of the state in which the copy
step runs; the send step then moves exactly that frame to the writer's
queue, and the write step hands exactly the queue head to `write_all`. -/
theorem claim2_byte_exact_copy {s0 s : State} (h0 : InitOk s0) (hr : Reaches s0 s) :
    (∀ (r : Nat) (w : Work) (rest : List Work) (t : State),
      s.queue = w :: rest → Step s (.readerRecv r) t →
      t.readers[r]? = some (.copied w (readBytes s.mem w.data w.size)) ∧
      (readBytes s.mem w.data w.size).length = w.size ∧
      (∀ k, k < w.size → (readBytes s.mem w.data w.size)[k]? = some (s.mem (w.data + k)))) ∧
    (∀ (r j : Nat) (w : Work) (fr : Frame) (t : State),
      s.readers[r]? = some (.copied w fr) → Step s (.readerSend r j) t →
      ∃ wr, s.writers[j]? = some wr ∧
        t.writers[j]? = some { wr with wqueue := wr.wqueue ++ [fr] }) ∧
    (∀ (j : Nat) (ok : Bool) (wr : EternalWriter) (fr : Frame) (rest : List Frame)
      (t : State),
      s.writers[j]? = some wr → wr.wqueue = fr :: rest → Step s (.writerWrite j ok) t →
      t.writers[j]? = some { wr with wqueue := rest, written := wr.written ++ [(fr, ok)] }) := by
  refine ⟨?_, ?_, ?_⟩
  · intro r w rest t hq hstep
    cases hstep with
    | readerRecv hr2 hq2 =>
      rw [hq] at hq2
      injection hq2 with hw hrest
      subst hw hrest
      refine ⟨getElem?_set_self hr2 _, ?_, ?_⟩
      · simp [readBytes]
      · intro k hk
        rw [readBytes, List.getElem?_map, List.getElem?_range hk]
        rfl
  · intro r j w fr t hrd hstep
    cases hstep with
    | readerSend hrd2 hl hf hwj =>
      rw [hrd] at hrd2
      injection Option.some_inj.mp hrd2 with hw hfr
      subst hw hfr
      exact ⟨_, hwj, getElem?_set_self hwj _⟩
  · intro j ok wr fr rest t hwj hq hstep
    cases hstep with
    | writerWrite ok2 hwj2 hterm hq2 =>
      rw [hwj] at hwj2
      have hww := Option.some_inj.mp hwj2
      subst hww
      rw [hq] at hq2
      injection hq2 with h1 h2
      subst h1 h2
      exact getElem?_set_self hwj _

/-- C5: while an address is present in the pending registry, a caller in the
spin loop of `pipe` for that address stays there under every transition of
the system, and in every reachable state there is at most one in-flight copy
of any address. -/
theorem claim5_duplicate_submit_blocks {s0 s : State}
    (h0 : InitOk s0) (hr : Reaches s0 s) :
    (∀ a, addrCount s a ≤ 1) ∧
    (∀ (i : Nat) (d : Pointer) (sz : Nat) (f : FileDescriptor),
      s.callers[i]? = some (.pipeInsert d sz f) → hasAddr s.pending d →
      ∀ (a : Act) (t : State), Step s a t →
        t.callers[i]? = some (.pipeInsert d sz f)) := by
  have hs := invReaches h0 hr
  exact ⟨hs.addrOnce, fun i d sz f hc hp => pipeInsert_blocked hc hp⟩

/-- C9: the duplicate-address guard of `pipe` is global across destinations:
a submit of address `d` to destination `f2` is blocked by a pending pair
`(f1, d)` for any destination `f1`, while the insert step, when it fires,
requires the address pending for no destination at all and records it under
`f2` only. -/
theorem claim9_global_duplicate_guard {s0 s : State}
    (h0 : InitOk s0) (hr : Reaches s0 s)
    {i : Nat} {d : Pointer} {sz : Nat} {f2 : FileDescriptor}
    (hc : s.callers[i]? = some (.pipeInsert d sz f2)) :
    (∀ f1, (f1, d) ∈ s.pending →
      ∀ (a : Act) (t : State), Step s a t →
        t.callers[i]? = some (.pipeInsert d sz f2)) ∧
    (∀ t, Step s (.pipeMark i) t →
      ¬ hasAddr s.pending d ∧ t.pending = insert (f2, d) s.pending) := by
  constructor
  · intro f1 hmem a t h
    exact pipeInsert_blocked hc ⟨(f1, d), hmem, rfl⟩ a t h
  · intro t h
    cases h with
    | pipeMark hc2 hg =>
      rw [hc] at hc2
      injection Option.some_inj.mp hc2 with h1 h2 h3
      subst h1 h3
      exact ⟨hg, rfl⟩

/-- C10: a reader-pool worker whose destination lookup failed still proceeds
to the pending-clear step, and the clear step removes the work item's
address from the registry for every destination, leaving no pair with that
address behind. -/
theorem claim10_pending_always_cleared {s0 s : State}
    (h0 : InitOk s0) (hr : Reaches s0 s) :
    (∀ (r : Nat) (w : Work) (fr : Frame) (t : State),
      s.readers[r]? = some (.copied w fr) → Step s (.readerDrop r) t →
      t.readers[r]? = some (.sent w)) ∧
    (∀ (r : Nat) (w : Work) (t : State),
      s.readers[r]? = some (.sent w) → Step s (.readerClear r) t →
      t.pending = s.pending.erase (w.file, w.data) ∧
      (∀ fd, (fd, w.data) ∉ t.pending) ∧
      t.readers[r]? = some .idle) := by
  have hs := invReaches h0 hr
  constructor
  · intro r w fr t hrd hstep
    cases hstep with
    | readerDrop hrd2 hl hf =>
      rw [hrd] at hrd2
      injection Option.some_inj.mp hrd2 with hw hfr
      subst hw
      exact getElem?_set_self hrd _
  · intro r w t hrd hstep
    cases hstep with
    | readerClear hrd2 =>
      rw [hrd] at hrd2
      injection Option.some_inj.mp hrd2 with hw
      subst hw
      refine ⟨rfl, ?_, getElem?_set_self hrd _⟩
      intro fd hmem
      have hne := (Finset.mem_erase.mp hmem).1
      have hm := (Finset.mem_erase.mp hmem).2
      have hpair : (w.file, w.data) ∈ s.pending := hs.readerPend r _ hrd (w.file, w.data) rfl
      exact hne (hs.addrUnique (fd, w.data) hm (w.file, w.data) hpair rfl)

/-- C3: when the `close(f)` caller returns from `handle.join()`: its phase is
done; no pending pair for `f` exists (given that no concurrent submit raced
the barrier, which §7 of the spec declares undefined); no registered writer
for `f` remains; the joined writer is unregistered, its channel closed and
drained, and it has terminated — so every frame it ever received has been
handed to a `write_all` call; and no work for `f` remains in flight in the
queue, in any reader, or in any caller past its pending insert. -/
theorem claim3_close_guarantees {s0 s t : State} (h0 : InitOk s0) (hr : Reaches s0 s)
    {i : Nat} {f : FileDescriptor} {j : Nat} {wr : EternalWriter}
    (hc : s.callers[i]? = some (.closeJoin f j))
    (hwj : s.writers[j]? = some wr) (ht : wr.terminated = true)
    (hp : noPendingFor s.pending f)
    (hstep : Step s (.closeJoined i) t) :
    t.callers[i]? = some .done ∧
    noPendingFor t.pending f ∧
    findRegistered t.writers f = none ∧
    t.writers[j]? = some wr ∧
    wr.registered = false ∧ wr.closed = true ∧ wr.wqueue = [] ∧ wr.terminated = true ∧
    (∀ w ∈ t.queue, w.file ≠ f) ∧
    (∀ (r : Nat) (ph : ReaderPhase), t.readers[r]? = some ph →
      ∀ e, readerOcc ph = some e → e.1 ≠ f) ∧
    (∀ (k : Nat) (c : CallerPhase), t.callers[k]? = some c →
      ∀ e, callerOcc c = some e → e.1 ≠ f) := by
  have hs := invReaches h0 hr
  obtain ⟨hsl, hall, wr', hwr', hnr, hclo⟩ := hs.closing i f j hc
  rw [hwj] at hwr'
  have hww : wr' = wr := (Option.some_inj.mp hwr').symm
  subst hww
  cases hstep with
  | closeJoined hc2 hwj2 ht2 =>
    refine ⟨getElem?_set_self hc _, hp, ?_, hwj, hnr, hclo,
      ((hs.writerFlags j wr' hwj).1 ht).2, ht, ?_, ?_, ?_⟩
    · exact (findRegistered_none_iff s.writers f).mpr hall
    · intro w hw
      exact hp _ (hs.queuePend w hw)
    · intro r ph hk e he
      exact hp e (hs.readerPend r ph hk e he)
    · intro k c hk e he
      rcases getElem?_set_cases hk with ⟨_, hcn⟩ | ⟨_, hold⟩
      · rw [hcn] at he
        cases he
      · exact hp e (hs.callerPend k c hold e he)

/-- C4: when the `sync` exit test passes (the pending registry is empty
across every destination), the shared work queue is empty, every reader is
idle at `recv`, and no caller sits between its pending insert and its queue
send — so every buffer submitted before the call has completed its copy-out
step, and no transition can read it again on behalf of that submission. -/
theorem claim4_sync_guarantees {s0 s t : State} (h0 : InitOk s0) (hr : Reaches s0 s)
    {i : Nat} (hc : s.callers[i]? = some .syncWait) (hp : s.pending = ∅)
    (hstep : Step s (.syncDone i) t) :
    t.callers[i]? = some .done ∧
    s.queue = [] ∧
    (∀ r ∈ s.readers, r = .idle) ∧
    (∀ (k : Nat) (c : CallerPhase), s.callers[k]? = some c → callerOcc c = none) ∧
    t.queue = [] ∧ t.pending = ∅ ∧ t.readers = s.readers := by
  have hs := invReaches h0 hr
  have hq : s.queue = [] := by
    cases hql : s.queue with
    | nil => rfl
    | cons w rest =>
      have := hs.queuePend w (by rw [hql]; exact List.mem_cons_self w rest)
      rw [hp] at this
      exact absurd this (Finset.not_mem_empty _)
  have hrd : ∀ r ∈ s.readers, r = .idle := by
    intro ph hm
    cases ph with
    | idle => rfl
    | copied w fr =>
      rcases List.mem_iff_getElem?.mp hm with ⟨k, hk⟩
      have := hs.readerPend k _ hk (w.file, w.data) rfl
      rw [hp] at this
      exact absurd this (Finset.not_mem_empty _)
    | sent w =>
      rcases List.mem_iff_getElem?.mp hm with ⟨k, hk⟩
      have := hs.readerPend k _ hk (w.file, w.data) rfl
      rw [hp] at this
      exact absurd this (Finset.not_mem_empty _)
  have hoc : ∀ (k : Nat) (c : CallerPhase), s.callers[k]? = some c → callerOcc c = none := by
    intro k c hk
    cases hcc : callerOcc c with
    | none => rfl
    | some e =>
      have := hs.callerPend k c hk e hcc
      rw [hp] at this
      exact absurd this (Finset.not_mem_empty _)
  cases hstep with
  | syncDone hc2 hp2 =>
    exact ⟨getElem?_set_self hc _, hq, hrd, hoc, hq, hp, rfl⟩

/-- C6: the reader-pool size is a pure function of the environment value,
read once: absent variable or failed parse gives 4; the initial state spawns
exactly that many reader threads; and no transition of the system ever
changes the number of reader threads. -/
theorem claim6_reader_pool_size :
    readThreadCount none = 4 ∧
    (∀ v, parseUsize v = none → readThreadCount (some v) = 4) ∧
    (∀ (env : Option String) (m : Pointer → Byte) (cs : List CallerPhase),
      (mkInit env m cs).readers.length = readThreadCount env) ∧
    (∀ (s : State) (a : Act) (t : State), Step s a t →
      t.readers.length = s.readers.length) := by
  refine ⟨rfl, ?_, ?_, ?_⟩
  · intro v hv
    simp [readThreadCount, hv]
  · intro env m cs
    simp [mkInit]
  · intro s a t h
    cases h <;> simp [List.length_set]

/-- C7: one iteration of the writer loop pops the head frame and hands it to
`write_all`; whatever the outcome `ok` of the write (the source drops the
`Result` on line 83), the frame leaves the queue for good, the writer is not
terminated and continues with the remaining frames, and no caller, reader,
queue or registry state is touched — no retry, no error surfaced. -/
theorem claim7_write_failure_swallowed {s0 s t : State}
    (h0 : InitOk s0) (hr : Reaches s0 s)
    {j : Nat} {wr : EternalWriter} {fr : Frame} {rest : List Frame} {ok : Bool}
    (hwj : s.writers[j]? = some wr) (hq : wr.wqueue = fr :: rest)
    (hstep : Step s (.writerWrite j ok) t) :
    t.writers[j]? = some { wr with wqueue := rest, written := wr.written ++ [(fr, ok)] } ∧
    (t.writers[j]?.map EternalWriter.terminated) = some false ∧
    t.callers = s.callers ∧ t.readers = s.readers ∧ t.pending = s.pending ∧
    t.queue = s.queue := by
  cases hstep with
  | writerWrite ok2 hwj2 hterm hq2 =>
    rw [hwj] at hwj2
    have hww := Option.some_inj.mp hwj2
    subst hww
    rw [hq] at hq2
    injection hq2 with h1 h2
    subst h1 h2
    refine ⟨getElem?_set_self hwj _, ?_, rfl, rfl, rfl, rfl⟩
    rw [getElem?_set_self hwj _]
    simp [hterm]

/-- C8: a reader-pool worker holding a copied frame whose destination has no
registered writer (the destination was already closed) silently discards the
frame: it proceeds to the clear phase while the writers, callers, pending
registry and queue are all left untouched — no error is raised anywhere. -/
theorem claim8_closed_destination_discard {s0 s t : State}
    (h0 : InitOk s0) (hr : Reaches s0 s)
    {r : Nat} {w : Work} {fr : Frame}
    (hrd : s.readers[r]? = some (.copied w fr))
    (hnone : findRegistered s.writers w.file = none)
    (hstep : Step s (.readerDrop r) t) :
    t.readers[r]? = some (.sent w) ∧
    t.writers = s.writers ∧ t.callers = s.callers ∧ t.pending = s.pending ∧
    t.queue = s.queue := by
  cases hstep with
  | readerDrop hrd2 hl hf =>
    rw [hrd] at hrd2
    injection Option.some_inj.mp hrd2 with hw hfr
    subst hw
    exact ⟨getElem?_set_self hrd _, rfl, rfl, rfl, rfl⟩

/-!
A concrete execution used to exhibit the counterexample for the stated C1
ordering and to witness the other claims: caller 0 pipes 2 bytes at address
100 to destination 5, caller 4 starts piping address 100 to destination 9
and blocks on the global duplicate guard, caller 1 closes destination 5
(the write fails, and is swallowed), caller 2 pipes to destination 5 again
racing that close, so its frame meets a removed writer entry and is
discarded, and caller 5 syncs.
-/

def m0 : Pointer → Byte := fun a => a % 256

def callers0 : List CallerPhase :=
  [.pipeStart 100 2 5, .closeWait 5, .pipeStart 200 3 5, .closeWait 5,
   .pipeStart 100 1 9, .syncWait]

def trace0 : State := mkInit none m0 callers0

theorem trace0_ok : InitOk trace0 := mkInit_initOk none m0 (by decide)

def trace1 : State :=
  { trace0 with writers := trace0.writers ++ [⟨5, true, [], [], false, false⟩],
                callers := trace0.callers.set 0 (.pipeInsert 100 2 5) }

theorem step01 : Step trace0 (.makeStreamNew 0) trace1 :=
  Step.makeStreamNew rfl rfl rfl

def trace2 : State :=
  { trace1 with pending := insert (5, 100) trace1.pending,
                callers := trace1.callers.set 0 (.pipeEnqueue 100 2 5) }

theorem step12 : Step trace1 (.pipeMark 0) trace2 :=
  Step.pipeMark rfl (by decide)

def trace3 : State :=
  { trace2 with writers := trace2.writers ++ [⟨9, true, [], [], false, false⟩],
                callers := trace2.callers.set 4 (.pipeInsert 100 1 9) }

theorem step23 : Step trace2 (.makeStreamNew 4) trace3 :=
  Step.makeStreamNew rfl rfl (by decide)

theorem step3loop : Step trace3 (.pipeSpin 4) trace3 :=
  Step.pipeSpin rfl (by decide)

def trace4 : State :=
  { trace3 with queue := trace3.queue ++ [⟨100, 2, 5⟩],
                callers := trace3.callers.set 0 .done }

theorem step34 : Step trace3 (.pipeSend 0) trace4 :=
  Step.pipeSend rfl

def trace5 : State :=
  { trace4 with queue := [],
                readers := trace4.readers.set 0 (.copied ⟨100, 2, 5⟩ (readBytes trace4.mem 100 2)) }

theorem step45 : Step trace4 (.readerRecv 0) trace5 :=
  Step.readerRecv rfl rfl

def trace6 : State :=
  { trace5 with
    writers := trace5.writers.set 0 ⟨5, true, [readBytes trace4.mem 100 2], [], false, false⟩,
    readers := trace5.readers.set 0 (.sent ⟨100, 2, 5⟩) }

theorem step56 : Step trace5 (.readerSend 0 0) trace6 :=
  Step.readerSend
    (show trace5.readers[0]? = some (.copied ⟨100, 2, 5⟩ (readBytes trace4.mem 100 2)) from rfl)
    rfl rfl rfl

def trace7 : State :=
  { trace6 with pending := trace6.pending.erase (5, 100),
                readers := trace6.readers.set 0 .idle }

theorem step67 : Step trace6 (.readerClear 0) trace7 :=
  Step.readerClear (show trace6.readers[0]? = some (.sent ⟨100, 2, 5⟩) from rfl)

def trace7s : State := { trace7 with callers := trace7.callers.set 5 .done }

theorem step7s : Step trace7 (.syncDone 5) trace7s :=
  Step.syncDone rfl (by decide)

def trace8 : State := { trace7 with callers := trace7.callers.set 1 (.closeLook 5) }

theorem step78 : Step trace7 (.closeReady 1) trace8 :=
  Step.closeReady rfl (by decide)

def trace9 : State := { trace8 with callers := trace8.callers.set 2 (.pipeInsert 200 3 5) }

theorem step89 : Step trace8 (.makeStreamOld 2) trace9 :=
  Step.makeStreamOld rfl rfl rfl

def trace10 : State :=
  { trace9 with
    writers := trace9.writers.set 0 ⟨5, false, [readBytes trace4.mem 100 2], [], true, false⟩,
    callers := trace9.callers.set 1 (.closeJoin 5 0),
    slock := some 1 }

theorem step910 : Step trace9 (.closeRemove 1 0) trace10 :=
  Step.closeRemove (show trace9.callers[1]? = some (.closeLook 5) from rfl) rfl rfl rfl

def trace11 : State :=
  { trace10 with
    writers := trace10.writers.set 0
      ⟨5, false, [], [(readBytes trace4.mem 100 2, false)], true, false⟩ }

theorem step1011 : Step trace10 (.writerWrite 0 false) trace11 :=
  Step.writerWrite false
    (show trace10.writers[0]?
      = some ⟨5, false, [readBytes trace4.mem 100 2], [], true, false⟩ from rfl)
    rfl rfl

def trace12 : State :=
  { trace11 with
    writers := trace11.writers.set 0
      ⟨5, false, [], [(readBytes trace4.mem 100 2, false)], true, true⟩ }

theorem step1112 : Step trace11 (.writerExit 0) trace12 :=
  Step.writerExit
    (show trace11.writers[0]?
      = some ⟨5, false, [], [(readBytes trace4.mem 100 2, false)], true, false⟩ from rfl)
    rfl rfl rfl

def trace13 : State :=
  { trace12 with callers := trace12.callers.set 1 .done, slock := none }

theorem step1213 : Step trace12 (.closeJoined 1) trace13 :=
  Step.closeJoined rfl rfl rfl

def trace14 : State :=
  { trace13 with pending := insert (5, 200) trace13.pending,
                 callers := trace13.callers.set 2 (.pipeEnqueue 200 3 5) }

theorem step1314 : Step trace13 (.pipeMark 2) trace14 :=
  Step.pipeMark rfl (by decide)

def trace15 : State :=
  { trace14 with queue := trace14.queue ++ [⟨200, 3, 5⟩],
                 callers := trace14.callers.set 2 .done }

theorem step1415 : Step trace14 (.pipeSend 2) trace15 :=
  Step.pipeSend rfl

def trace16 : State :=
  { trace15 with queue := [],
                 readers := trace15.readers.set 0 (.copied ⟨200, 3, 5⟩ (readBytes trace15.mem 200 3)) }

theorem step1516 : Step trace15 (.readerRecv 0) trace16 :=
  Step.readerRecv rfl rfl

def trace17 : State :=
  { trace16 with readers := trace16.readers.set 0 (.sent ⟨200, 3, 5⟩) }

theorem step1617 : Step trace16 (.readerDrop 0) trace17 :=
  Step.readerDrop rfl rfl (by decide)

def trace18 : State :=
  { trace17 with pending := trace17.pending.erase (5, 200),
                 readers := trace17.readers.set 0 .idle }

theorem step1718 : Step trace17 (.readerClear 0) trace18 :=
  Step.readerClear (show trace17.readers[0]? = some (.sent ⟨200, 3, 5⟩) from rfl)

theorem reach1 : Reaches trace0 trace1 :=
  Relation.ReflTransGen.tail Relation.ReflTransGen.refl ⟨_, step01⟩

theorem reach2 : Reaches trace0 trace2 := Relation.ReflTransGen.tail reach1 ⟨_, step12⟩

theorem reach3 : Reaches trace0 trace3 := Relation.ReflTransGen.tail reach2 ⟨_, step23⟩

theorem reach4 : Reaches trace0 trace4 := Relation.ReflTransGen.tail reach3 ⟨_, step34⟩

theorem reach5 : Reaches trace0 trace5 := Relation.ReflTransGen.tail reach4 ⟨_, step45⟩

theorem reach6 : Reaches trace0 trace6 := Relation.ReflTransGen.tail reach5 ⟨_, step56⟩

theorem reach7 : Reaches trace0 trace7 := Relation.ReflTransGen.tail reach6 ⟨_, step67⟩

theorem reach8 : Reaches trace0 trace8 := Relation.ReflTransGen.tail reach7 ⟨_, step78⟩

theorem reach9 : Reaches trace0 trace9 := Relation.ReflTransGen.tail reach8 ⟨_, step89⟩

theorem reach10 : Reaches trace0 trace10 := Relation.ReflTransGen.tail reach9 ⟨_, step910⟩

theorem reach11 : Reaches trace0 trace11 := Relation.ReflTransGen.tail reach10 ⟨_, step1011⟩

theorem reach12 : Reaches trace0 trace12 := Relation.ReflTransGen.tail reach11 ⟨_, step1112⟩

theorem reach13 : Reaches trace0 trace13 := Relation.ReflTransGen.tail reach12 ⟨_, step1213⟩

theorem reach14 : Reaches trace0 trace14 := Relation.ReflTransGen.tail reach13 ⟨_, step1314⟩

theorem reach15 : Reaches trace0 trace15 := Relation.ReflTransGen.tail reach14 ⟨_, step1415⟩

theorem reach16 : Reaches trace0 trace16 := Relation.ReflTransGen.tail reach15 ⟨_, step1516⟩

theorem reach17 : Reaches trace0 trace17 := Relation.ReflTransGen.tail reach16 ⟨_, step1617⟩

theorem reach18 : Reaches trace0 trace18 := Relation.ReflTransGen.tail reach17 ⟨_, step1718⟩

/-- C1 as stated is false on the code: it claims the reader removes the
address from the Pending Registry before looking up the Writer entry and
pushing the Frame.  In the reachable state `trace5` the reader holds the
copied frame, `(5, 100)` is still pending, and the very next step of that
reader is the lookup-and-push (lines 69-72), after which `(5, 100)` is
*still* pending while the frame already sits in writer 0's queue: the push
strictly precedes the removal. -/
theorem claim1_reader_order_cex :
    Reaches trace0 trace5 ∧
    Step trace5 (.readerSend 0 0) trace6 ∧
    (5, 100) ∈ trace5.pending ∧
    (5, 100) ∈ trace6.pending ∧
    trace6.writers[0]?.map EternalWriter.wqueue = some [[100, 101]] ∧
    trace6.readers[0]? = some (.sent ⟨100, 2, 5⟩) :=
  ⟨reach5, step56, by decide, by decide, by decide, by decide⟩

theorem claim1_reader_order_witness :
    ∃ w fr wr, trace5.readers[0]? = some (.copied w fr) ∧
      (w.file, w.data) ∈ trace5.pending ∧
      trace6.pending = trace5.pending ∧
      trace5.writers[0]? = some wr ∧
      trace6.writers = trace5.writers.set 0 { wr with wqueue := wr.wqueue ++ [fr] } ∧
      trace6.readers[0]? = some (.sent w) :=
  (claim1_reader_order_amended trace0_ok reach5).1 0 0 trace6 step56

theorem claim2_byte_exact_copy_witness :
    trace5.readers[0]? = some (.copied ⟨100, 2, 5⟩ (readBytes trace4.mem 100 2)) ∧
    (readBytes trace4.mem 100 2)[0]? = some (trace4.mem (100 + 0)) ∧
    (readBytes trace4.mem 100 2)[1]? = some (trace4.mem (100 + 1)) := by
  have h := (claim2_byte_exact_copy trace0_ok reach4).1 0 ⟨100, 2, 5⟩ [] trace5 rfl step45
  exact ⟨h.1, h.2.2 0 (by decide), h.2.2 1 (by decide)⟩

theorem claim3_close_guarantees_witness :
    trace13.callers[1]? = some CallerPhase.done ∧
    findRegistered trace13.writers 5 = none ∧
    trace13.writers[0]?
      = some ⟨5, false, [], [(readBytes trace4.mem 100 2, false)], true, true⟩ := by
  have h := claim3_close_guarantees trace0_ok reach12
    (show trace12.callers[1]? = some (.closeJoin 5 0) from rfl)
    (show trace12.writers[0]?
      = some ⟨5, false, [], [(readBytes trace4.mem 100 2, false)], true, true⟩ from rfl)
    rfl (by decide) step1213
  exact ⟨h.1, h.2.2.1, h.2.2.2.1⟩

theorem claim4_sync_guarantees_witness :
    trace7s.callers[5]? = some CallerPhase.done ∧ trace7.queue = [] ∧
    trace7s.pending = ∅ := by
  have h := claim4_sync_guarantees trace0_ok reach7
    (show trace7.callers[5]? = some .syncWait from rfl) (by decide) step7s
  exact ⟨h.1, h.2.1, h.2.2.2.2.2.1⟩

theorem claim5_duplicate_submit_blocks_witness :
    addrCount trace3 100 ≤ 1 ∧
    trace3.callers[4]? = some (.pipeInsert 100 1 9) := by
  have h := claim5_duplicate_submit_blocks trace0_ok reach3
  exact ⟨h.1 100, h.2 4 100 1 9 rfl (by decide) (.pipeSpin 4) trace3 step3loop⟩

theorem claim6_reader_pool_size_witness :
    readThreadCount (some "7x") = 4 ∧ readThreadCount none = 4 ∧
    (mkInit none m0 callers0).readers.length = 4 := by
  have h := claim6_reader_pool_size
  refine ⟨h.2.1 "7x" (by decide), h.1, ?_⟩
  rw [h.2.2.1 none m0 callers0]
  exact h.1

theorem claim7_write_failure_swallowed_witness :
    trace11.writers[0]?.map EternalWriter.written
      = some [(readBytes trace4.mem 100 2, false)] ∧
    trace11.callers = trace10.callers ∧ trace11.pending = trace10.pending := by
  have h := claim7_write_failure_swallowed trace0_ok reach10
    (show trace10.writers[0]?
      = some ⟨5, false, [readBytes trace4.mem 100 2], [], true, false⟩ from rfl)
    rfl step1011
  refine ⟨?_, h.2.2.1, h.2.2.2.2.1⟩
  rw [h.1]
  rfl

theorem claim8_closed_destination_discard_witness :
    trace17.readers[0]? = some (.sent ⟨200, 3, 5⟩) ∧ trace17.writers = trace16.writers := by
  have h := claim8_closed_destination_discard trace0_ok reach16
    (show trace16.readers[0]?
      = some (.copied ⟨200, 3, 5⟩ (readBytes trace15.mem 200 3)) from rfl)
    (by decide) step1617
  exact ⟨h.1, h.2.1⟩

theorem claim9_global_duplicate_guard_witness :
    (5, 100) ∈ trace3.pending ∧
    trace3.callers[4]? = some (.pipeInsert 100 1 9) := by
  have h := claim9_global_duplicate_guard trace0_ok reach3
    (show trace3.callers[4]? = some (.pipeInsert 100 1 9) from rfl)
  exact ⟨by decide, h.1 5 (by decide) (.pipeSpin 4) trace3 step3loop⟩

theorem claim10_pending_always_cleared_witness :
    trace18.pending = trace17.pending.erase (5, 200) ∧
    (5, 200) ∉ trace18.pending ∧ (9, 200) ∉ trace18.pending ∧
    trace18.readers[0]? = some ReaderPhase.idle := by
  have h := (claim10_pending_always_cleared trace0_ok reach17).2 0 ⟨200, 3, 5⟩ trace18
    rfl step1718
  exact ⟨h.1, h.2.1 5, h.2.1 9, h.2.2⟩

end Turbopipe
